import Mathlib

/-!
Verification development for the "Too Many Chats" SillyTavern extension.

The repository bundles three revisions of the same extension.  The Folder
Store and View Builder of each revision are shallowly embedded here:

* `src/index.js` (v2.0.2 block, lines 1-537): `createFolder`, `renameFolder`,
  `deleteFolder`, `moveChat`, `getFolderForChat`, `performSync`.
* `src/index.js` (v1.6.0 block, lines 1061-1514): `getFoldersForCharacter`,
  `buildUI`.
* `src/unnamed/part_000` (v1.1.0): `createFolder` (modelled as
  `createFolderV1`), `getFoldersForCurrentCharacter`,
  `injectFoldersIntoChatHistory` (modelled as `injectModel`).

JavaScript objects are modelled as association lists keyed by `String`
(JS object keys are unique and iterated in insertion order), JS arrays as
`List String`, and the ambient `getCurrentCharacterId()` result as an
`Option String` argument threaded to each operation.  `generateId()` is
modelled by passing the fresh id as an explicit argument.
-/

/-- A folder record, `settings.folders[folderId]` in the source:
`{ name, chats, collapsed, order }`. -/
structure Folder where
  name : String
  chats : List String
  collapsed : Bool
  order : Nat
deriving DecidableEq

/-- The persisted settings blob: `{ folders, characterFolders }`
(the `version` field plays no role in any operation and is omitted). -/
structure Settings where
  folders : List (String × Folder)
  characterFolders : List (String × List String)
deriving DecidableEq

/-- Association-list lookup, modelling `obj[key]` on a JS object
(returns the value at the first matching key). -/
def lookupA {β : Type} (k : String) : List (String × β) → Option β
  | [] => none
  | (a, b) :: rest => if a = k then some b else lookupA k rest

/-- Association-list update, modelling `obj[key] = v`: overwrite in place
when the key is present, append otherwise. -/
def setA {β : Type} (k : String) (v : β) : List (String × β) → List (String × β)
  | [] => [(k, v)]
  | (a, b) :: rest => if a = k then (k, v) :: rest else (a, b) :: setA k v rest

/-- Association-list deletion, modelling `delete obj[key]`. -/
def eraseA {β : Type} (k : String) : List (String × β) → List (String × β)
  | [] => []
  | (a, b) :: rest => if a = k then rest else (a, b) :: eraseA k rest

/-- Number of occurrences of `k` in a string list. -/
def countOcc (k : String) : List String → Nat
  | [] => 0
  | a :: rest => (if a = k then 1 else 0) + countOcc k rest

/-- Remove the first occurrence of `k`, modelling
`const idx = arr.indexOf(k); if (idx > -1) arr.splice(idx, 1)`. -/
def removeFirst (k : String) : List String → List String
  | [] => []
  | a :: rest => if a = k then rest else a :: removeFirst k rest

/-- Boolean membership test, modelling `arr.includes(k)`. -/
def memB (k : String) : List String → Bool
  | [] => false
  | a :: rest => if a = k then true else memB k rest

/-- `String.prototype.trim()`: drop whitespace from both ends (modelled
over the character list so that concrete instances reduce). -/
def trimS (s : String) : String :=
  ⟨((s.data.dropWhile Char.isWhitespace).reverse.dropWhile Char.isWhitespace).reverse⟩

/-- The JS blank test `!name || !name.trim()`, which holds exactly when the
trimmed name is empty. -/
def isBlank (name : String) : Bool :=
  decide (trimS name = "")

/-- The folder-id list of a scope, `settings.characterFolders[cid] || []`. -/
def scopeList (s : Settings) (cid : String) : List String :=
  (lookupA cid s.characterFolders).getD []

/-- The chats array of a folder id (empty when the record is missing). -/
def chatsOf (folders : List (String × Folder)) (fid : String) : List String :=
  match lookupA fid folders with
  | some f => f.chats
  | none => []

/-- `createFolder(name)` of `src/index.js` (v2.0.2 block, lines 72-96):
rejects blank names, requires an active scope, assigns
`order = (settings.characterFolders[characterId] || []).length`, stores the
new record under the fresh id and appends the id to the scope list. -/
def createFolder (scope : Option String) (freshId name : String) (s : Settings) : Settings :=
  if isBlank name then s else
  match scope with
  | none => s
  | some cid =>
    let existing := scopeList s cid
    { folders := setA freshId ⟨trimS name, [], false, existing.length⟩ s.folders,
      characterFolders := setA cid (existing ++ [freshId]) s.characterFolders }

/-- `createFolder(name)` of `src/unnamed/part_000` (lines 63-87): no blank
check (blank falls back to the name "New Folder", only `""` is falsy), no
trimming, and `order` is the number of keys of `settings.folders` that the
scope list includes, not the length of the scope list. -/
def createFolderV1 (scope : Option String) (freshId name : String) (s : Settings) : Settings :=
  match scope with
  | none => s
  | some cid =>
    let lst := scopeList s cid
    let folderCount := ((s.folders.map Prod.fst).filter (fun id => memB id lst)).length
    let nm := if name = "" then "New Folder" else name
    { folders := setA freshId ⟨nm, [], false, folderCount⟩ s.folders,
      characterFolders := setA cid (lst ++ [freshId]) s.characterFolders }

/-- `renameFolder(folderId, newName)` of `src/index.js` (lines 98-106):
rejects blank names, trims, and never consults the scope resolver. -/
def renameFolder (folderId newName : String) (s : Settings) : Settings :=
  if isBlank newName then s else
  match lookupA folderId s.folders with
  | none => s
  | some f => { s with folders := setA folderId { f with name := trimS newName } s.folders }

/-- `deleteFolder(folderId)` of `src/index.js` (lines 108-122): requires an
active scope, splices the first occurrence of the id out of the scope list
and deletes the record unconditionally. -/
def deleteFolder (scope : Option String) (folderId : String) (s : Settings) : Settings :=
  match scope with
  | none => s
  | some cid =>
    let cf := match lookupA cid s.characterFolders with
      | some lst => setA cid (removeFirst folderId lst) s.characterFolders
      | none => s.characterFolders
    { folders := eraseA folderId s.folders, characterFolders := cf }

/-- One iteration of the removal loop of `moveChat`: splice the first
occurrence of `k` out of `settings.folders[fid].chats` when the record
exists. -/
def removeStep (k : String) (fl : List (String × Folder)) (fid : String) : List (String × Folder) :=
  match lookupA fid fl with
  | some f => setA fid { f with chats := removeFirst k f.chats } fl
  | none => fl

/-- The removal loop of `moveChat` (lines 129-137): for each folder id of
the scope, remove the first occurrence of `k` from its chats. -/
def removeAll (k : String) (fl : List (String × Folder)) (fids : List String) : List (String × Folder) :=
  fids.foldl (removeStep k) fl

/-- `moveChat(fileName, targetFolderId)` of `src/index.js` (lines 124-153):
requires an active scope, removes the file from every folder of the scope,
then appends it to the target when the target id is truthy, is not the
`uncategorized` sentinel and its record exists. -/
def moveChat (scope : Option String) (fileName targetFolderId : String) (s : Settings) : Settings :=
  match scope with
  | none => s
  | some cid =>
    let folders1 := removeAll fileName s.folders (scopeList s cid)
    let folders2 :=
      if targetFolderId ≠ "" ∧ targetFolderId ≠ "uncategorized" then
        match lookupA targetFolderId folders1 with
        | some f => setA targetFolderId { f with chats := f.chats ++ [fileName] } folders1
        | none => folders1
      else folders1
    { s with folders := folders2 }

/-- The scan of `getFolderForChat` over the scope list: first folder whose
chats include the file, else the `uncategorized` sentinel. -/
def findChatFolder (folders : List (String × Folder)) (fileName : String) : List String → String
  | [] => "uncategorized"
  | fid :: rest =>
    match lookupA fid folders with
    | some f => if memB fileName f.chats then fid else findChatFolder folders fileName rest
    | none => findChatFolder folders fileName rest

/-- `getFolderForChat(fileName)` of `src/index.js` (lines 155-168). -/
def getFolderForChat (scope : Option String) (fileName : String) (s : Settings) : String :=
  match scope with
  | none => "uncategorized"
  | some cid => findChatFolder s.folders fileName (scopeList s cid)

/-- A `moveChat` call per element: `moveSeq cid ops s` performs the calls of
`ops` (fileName, targetFolderId pairs) in order while scope `cid` is active. -/
def moveSeq (cid : String) (ops : List (String × String)) (s : Settings) : Settings :=
  ops.foldl (fun st op => moveChat (some cid) op.1 op.2 st) s

/-- Each folder of the scope holds the key `k` at most once in its chats. -/
def PerFolderOnce (s : Settings) (cid k : String) : Prop :=
  ∀ fid ∈ scopeList s cid, countOcc k (chatsOf s.folders fid) ≤ 1

/-- The key `k` is in the chats of at most one folder of the scope. -/
def InOneFolder (s : Settings) (cid k : String) : Prop :=
  ∀ fid1 ∈ scopeList s cid, ∀ fid2 ∈ scopeList s cid,
    0 < countOcc k (chatsOf s.folders fid1) →
    0 < countOcc k (chatsOf s.folders fid2) → fid1 = fid2

instance (s : Settings) (cid k : String) : Decidable (PerFolderOnce s cid k) := by
  unfold PerFolderOnce; infer_instance

instance (s : Settings) (cid k : String) : Decidable (InOneFolder s cid k) := by
  unfold InOneFolder; infer_instance

/-- The object `{ id, ...settings.folders[id] }` built by the folder-listing
functions.  A dangling id spreads `undefined`, leaving only `id`; the
missing fields are modelled by their falsy defaults (name `""`, which the
subsequent `.filter(f => f.name)` rejects, exactly as `undefined` would be
rejected). -/
structure FolderEntry where
  id : String
  name : String
  chats : List String
  collapsed : Bool
  order : Nat
deriving DecidableEq

/-- `{ id, ...settings.folders[id] }`. -/
def entryOf (folders : List (String × Folder)) (id : String) : FolderEntry :=
  match lookupA id folders with
  | some f => ⟨id, f.name, f.chats, f.collapsed, f.order⟩
  | none => ⟨id, "", [], false, 0⟩

/-- `folderIds.map(id => ({ id, ...settings.folders[id] })).filter(f => f.name)`,
shared by both folder-listing functions. -/
def scopeEntries (s : Settings) (fids : List String) : List FolderEntry :=
  (fids.map (entryOf s.folders)).filter (fun f => decide (f.name ≠ ""))

/-- `getFoldersForCharacter()` of `src/index.js` (v1.6.0 block, lines
1217-1226): the filtered entries in insertion order, with no sorting. -/
def getFoldersForCharacter (scope : Option String) (s : Settings) : List FolderEntry :=
  match scope with
  | none => []
  | some cid => scopeEntries s (scopeList s cid)

/-- Insert into a sorted-by-`order` list, after strictly smaller orders and
before equal ones, so that `sortByOrder` is the stable sort that
`Array.prototype.sort((a, b) => (a.order || 0) - (b.order || 0))`
performs (ECMAScript sort is stable). -/
def insertByOrder (e : FolderEntry) : List FolderEntry → List FolderEntry
  | [] => [e]
  | a :: rest => if a.order < e.order then a :: insertByOrder e rest else e :: a :: rest

/-- Stable sort by the `order` field. -/
def sortByOrder : List FolderEntry → List FolderEntry
  | [] => []
  | a :: rest => insertByOrder a (sortByOrder rest)

/-- `getFoldersForCurrentCharacter()` of `src/unnamed/part_000` (lines
151-161): like `getFoldersForCharacter` but sorted by
`(a.order || 0) - (b.order || 0)`. -/
def getFoldersForCurrentCharacter (scope : Option String) (s : Settings) : List FolderEntry :=
  match scope with
  | none => []
  | some cid => sortByOrder (scopeEntries s (scopeList s cid))

/-- One rendered group (a `.tmc_section` / `.chat_folder_section`): the
folder id (or the `uncategorized` sentinel), header name, persisted
collapse flag, the item keys placed in its content, the count badge, and
whether the section was hidden (`style.display = 'none'`). -/
structure GroupView where
  gid : String
  name : String
  collapsed : Bool
  items : List String
  count : Nat
  hidden : Bool
deriving DecidableEq

/-- The folder sections that `performSync` builds (`src/index.js` lines
251-257 and 274-291): one per listed id with a record, items distributed by
`getFolderForChat` in host order, count = number of items, never hidden. -/
def folderGroupsOf (scope : Option String) (s : Settings) (chats : List String) : List GroupView :=
  let fids := match scope with
    | some cid => scopeList s cid
    | none => []
  fids.filterMap (fun fid =>
    match lookupA fid s.folders with
    | some f =>
      let items := chats.filter (fun c => decide (getFolderForChat scope c s = fid))
      some ⟨fid, f.name, f.collapsed, items, items.length, false⟩
    | none => none)

/-- The Uncategorized section of `performSync` (lines 259-262 and 283-291):
holds the chats resolving to the sentinel and is hidden exactly when empty
(`section.style.display = count > 0 ? '' : 'none'`). -/
def uncatGroupOf (scope : Option String) (s : Settings) (chats : List String) : GroupView :=
  let items := chats.filter (fun c => decide (getFolderForChat scope c s = "uncategorized"))
  ⟨"uncategorized", "Uncategorized", false, items, items.length, items.isEmpty⟩

/-- The full group tree of one `performSync` pass: folder sections in scope
order followed by the Uncategorized section. -/
def buildGroups (scope : Option String) (s : Settings) (chats : List String) : List GroupView :=
  folderGroupsOf scope s chats ++ [uncatGroupOf scope s chats]

/-- The popup as `performSync` sees it: whether a visible popup was found,
the native `.select_chat_block` keys (possibly `""` when no attribute,
title or text yields one), and the `#tmc_proxy_root` contents (`none`
before the first pass). -/
structure PopupState where
  visible : Bool
  nativeKeys : List String
  proxy : Option (List GroupView)
deriving DecidableEq

/-- `performSync()` of `src/index.js` (v2.0.2 block, lines 177-303): no-op
without a visible popup; otherwise keyless blocks are dropped
(`.filter(d => d.fileName)`), the tree is rebuilt from scratch and swapped
into the proxy root (`proxyRoot.innerHTML = ''` then append).  The settings
store is only read, never written, so it is returned unchanged. -/
def performSyncM (scope : Option String) (s : Settings) (p : PopupState) : Settings × PopupState :=
  if p.visible then
    let chats := p.nativeKeys.filter (fun k => decide (k ≠ ""))
    (s, { p with proxy := some (buildGroups scope s chats) })
  else (s, p)

/-- The popup as `buildUI` (v1.6.0) sees it: popup visibility, presence of
`.select_chat_block_wrapper`, the `.select_chat_block` keys that are NOT
inside `.tmc_root` (`loose`), and the `.tmc_root` sections (whose blocks
live inside them; removing the root removes those blocks from the DOM). -/
structure WrapperState where
  visible : Bool
  hasWrapper : Bool
  loose : List String
  root : Option (List GroupView)
deriving DecidableEq

/-- `buildUI()` of `src/index.js` (v1.6.0 block, lines 1230-1311).  The
pass first removes every `.tmc_root` (line 1243) — discarding any blocks
previously reparented into it — and only then queries the remaining
`.select_chat_block` elements; with none left it returns early.  Otherwise
it rebuilds the sections from `getFoldersForCharacter()` (unsorted), moves
each keyed block into the section `getFolderForChat` resolves (blocks whose
resolved folder is filtered out of the entry list stay loose), counts the
children and hides an empty Uncategorized row.  The settings store is only
read, never written. -/
def buildUIM (scope : Option String) (s : Settings) (w : WrapperState) : Settings × WrapperState :=
  if w.visible && w.hasWrapper then
    match scope with
    | none => (s, w)
    | some cid =>
      let blocks := w.loose
      if blocks.isEmpty then (s, { w with root := none })
      else
        let entries := getFoldersForCharacter (some cid) s
        let gids := entries.map (fun e => e.id)
        let resolveOf := fun k => getFolderForChat (some cid) k s
        let movable := fun k =>
          decide (k ≠ "") && (memB (resolveOf k) gids || decide (resolveOf k = "uncategorized"))
        let folderSections := entries.map (fun e =>
          let items := blocks.filter (fun k => decide (k ≠ "") && decide (resolveOf k = e.id))
          GroupView.mk e.id e.name e.collapsed items items.length false)
        let uncatItems := blocks.filter (fun k => decide (k ≠ "") && decide (resolveOf k = "uncategorized"))
        let uncat := GroupView.mk "uncategorized" "Uncategorized" false uncatItems uncatItems.length uncatItems.isEmpty
        (s, { w with loose := blocks.filter (fun k => !(movable k)),
                     root := some (folderSections ++ [uncat]) })
  else (s, w)

/-- The Chat History panel as `injectFoldersIntoChatHistory` (part_000)
sees it: popup presence, the chat-list container probe result, the
`file_name` keys of the `.select_chat_block` elements, and the injected
`.chat_folder_section` elements. -/
structure HistoryState where
  popupPresent : Bool
  chatListFound : Bool
  blocks : List String
  sections : List GroupView
deriving DecidableEq

/-- `injectFoldersIntoChatHistory()` of `src/unnamed/part_000` (lines
179-330): early no-ops when the popup, the chat list, the blocks or the
scope are absent; with no folders it only clears previous sections.
Otherwise each folder section receives the chats of its record that exist
in the DOM, its badge shows `folder.chats?.length || 0` (the record length,
not the displayed count), sections are prepended one by one (so they end up
in reverse folder order) and an Uncategorized section is appended only when
some keyed block is in no folder record.  The settings store is only read,
never written. -/
def injectModel (scope : Option String) (s : Settings) (h : HistoryState) : Settings × HistoryState :=
  if !h.popupPresent then (s, h) else
  if !h.chatListFound then (s, h) else
  if h.blocks.isEmpty then (s, h) else
  match scope with
  | none => (s, h)
  | some cid =>
    let folders := getFoldersForCurrentCharacter (some cid) s
    if folders.isEmpty then (s, { h with sections := [] })
    else
      let keys := h.blocks.filter (fun k => decide (k ≠ ""))
      let assigned := fun c => folders.any (fun f => memB c f.chats)
      let folderSections := folders.map (fun f =>
        let items := f.chats.filter (fun c => memB c keys)
        GroupView.mk f.id f.name f.collapsed items f.chats.length false)
      let uncatKeys := keys.filter (fun c => !(assigned c))
      let sections :=
        if uncatKeys.isEmpty then folderSections.reverse
        else folderSections.reverse ++ [GroupView.mk "uncategorized" "Uncategorized" false uncatKeys uncatKeys.length false]
      (s, { h with sections := sections })

/-! ### Association-list and occurrence-count lemmas -/

theorem lookupA_setA_self {β : Type} (k : String) (v : β) (l : List (String × β)) :
    lookupA k (setA k v l) = some v := by
  induction l with
  | nil => simp [setA, lookupA]
  | cons p rest ih =>
    obtain ⟨a, b⟩ := p
    by_cases h : a = k
    · simp [setA, h, lookupA]
    · simp [setA, h, lookupA, ih]

theorem lookupA_setA_ne {β : Type} {k k' : String} (h : k ≠ k') (v : β)
    (l : List (String × β)) : lookupA k (setA k' v l) = lookupA k l := by
  have h' : ¬ (k' = k) := fun hh => h hh.symm
  induction l with
  | nil => simp [setA, lookupA, h']
  | cons p rest ih =>
    obtain ⟨a, b⟩ := p
    by_cases ha : a = k'
    · subst ha
      simp [setA, lookupA, h']
    · simp [setA, ha, lookupA, ih]

theorem setA_lookup_eq_self {β : Type} {k : String} {v : β} {l : List (String × β)}
    (h : lookupA k l = some v) : setA k v l = l := by
  induction l with
  | nil => simp [lookupA] at h
  | cons p rest ih =>
    obtain ⟨a, b⟩ := p
    by_cases ha : a = k
    · subst ha
      simp [lookupA] at h
      simp [setA, h]
    · simp [lookupA, ha] at h
      simp [setA, ha, ih h]

theorem lookupA_eraseA_ne {β : Type} {k k' : String} (h : k ≠ k')
    (l : List (String × β)) : lookupA k (eraseA k' l) = lookupA k l := by
  have h' : ¬ (k' = k) := fun hh => h hh.symm
  induction l with
  | nil => simp [eraseA]
  | cons p rest ih =>
    obtain ⟨a, b⟩ := p
    by_cases ha : a = k'
    · subst ha
      simp [eraseA, lookupA, h']
    · simp [eraseA, ha, lookupA, ih]

theorem lookupA_none_of_keys_zero {β : Type} {k : String} {l : List (String × β)}
    (h : countOcc k (l.map Prod.fst) = 0) : lookupA k l = none := by
  induction l with
  | nil => simp [lookupA]
  | cons p rest ih =>
    obtain ⟨a, b⟩ := p
    simp [countOcc] at h
    by_cases ha : a = k
    · simp [ha] at h
    · simp [lookupA, ha]
      exact ih (by simpa [ha] using h)

theorem lookupA_eraseA_self {β : Type} {k : String} {l : List (String × β)}
    (h : countOcc k (l.map Prod.fst) ≤ 1) : lookupA k (eraseA k l) = none := by
  induction l with
  | nil => simp [eraseA, lookupA]
  | cons p rest ih =>
    obtain ⟨a, b⟩ := p
    by_cases ha : a = k
    · subst ha
      simp [countOcc] at h
      simp [eraseA]
      exact lookupA_none_of_keys_zero h
    · simp [countOcc, ha] at h
      simp [eraseA, ha, lookupA, ih h]

theorem countOcc_append (k : String) (l1 l2 : List String) :
    countOcc k (l1 ++ l2) = countOcc k l1 + countOcc k l2 := by
  induction l1 with
  | nil => simp [countOcc]
  | cons a rest ih => simp [countOcc, ih]; omega

theorem countOcc_removeFirst_self (k : String) (l : List String) :
    countOcc k (removeFirst k l) = countOcc k l - 1 := by
  induction l with
  | nil => simp [removeFirst, countOcc]
  | cons a rest ih =>
    by_cases ha : a = k
    · simp [removeFirst, ha, countOcc]
    · simp [removeFirst, ha, countOcc, ih]

theorem countOcc_removeFirst_ne {k k' : String} (h : k ≠ k') (l : List String) :
    countOcc k (removeFirst k' l) = countOcc k l := by
  have h' : ¬ (k' = k) := fun hh => h hh.symm
  induction l with
  | nil => simp [removeFirst]
  | cons a rest ih =>
    by_cases ha : a = k'
    · subst ha
      simp [removeFirst, countOcc, h']
    · simp [removeFirst, ha, countOcc, ih]

theorem removeFirst_of_countOcc_zero {k : String} {l : List String}
    (h : countOcc k l = 0) : removeFirst k l = l := by
  induction l with
  | nil => simp [removeFirst]
  | cons a rest ih =>
    simp [countOcc] at h
    by_cases ha : a = k
    · simp [ha] at h
    · simp [removeFirst, ha, ih (by simpa [ha] using h)]

theorem mem_iff_countOcc {k : String} {l : List String} :
    k ∈ l ↔ 0 < countOcc k l := by
  induction l with
  | nil => simp [countOcc]
  | cons a rest ih =>
    by_cases ha : a = k
    · subst ha; simp [countOcc]
    · have h' : ¬ (k = a) := fun hh => ha hh.symm
      simp [countOcc, ha, h', ih]

theorem memB_iff_mem {k : String} {l : List String} :
    memB k l = true ↔ k ∈ l := by
  induction l with
  | nil => simp [memB]
  | cons a rest ih =>
    by_cases ha : a = k
    · subst ha; simp [memB]
    · have h' : ¬ (k = a) := fun hh => ha hh.symm
      simp [memB, ha, h', ih]

theorem mem_of_mem_removeFirst {x k : String} {l : List String}
    (h : x ∈ removeFirst k l) : x ∈ l := by
  induction l with
  | nil => simp [removeFirst] at h
  | cons a rest ih =>
    by_cases ha : a = k
    · simp [removeFirst, ha] at h
      simp [h]
    · simp [removeFirst, ha] at h
      rcases h with h | h
      · simp [h]
      · simp [ih h]

theorem not_mem_removeFirst {k : String} {l : List String}
    (h : countOcc k l ≤ 1) : k ∉ removeFirst k l := by
  intro hmem
  have h1 := mem_iff_countOcc.mp hmem
  rw [countOcc_removeFirst_self] at h1
  omega

theorem length_removeFirst {k : String} {l : List String} (h : k ∈ l) :
    (removeFirst k l).length + 1 = l.length := by
  induction l with
  | nil => simp at h
  | cons a rest ih =>
    by_cases ha : a = k
    · simp [removeFirst, ha]
    · have : k ∈ rest := by
        rcases List.mem_cons.mp h with hh | hh
        · exact absurd (Eq.symm hh) ha
        · exact hh
      simp [removeFirst, ha, ih this]

/-! ### Lemmas about the moveChat removal loop -/

theorem lookupA_removeAll_none {k tgt : String} {fl : List (String × Folder)}
    {fids : List String} (h : lookupA tgt fl = none) :
    lookupA tgt (removeAll k fl fids) = none := by
  induction fids generalizing fl with
  | nil => simpa [removeAll] using h
  | cons a rest ih =>
    have hstep : lookupA tgt (removeStep k fl a) = none := by
      unfold removeStep
      cases hl : lookupA a fl with
      | none => exact h
      | some f =>
        have hne : tgt ≠ a := by
          rintro rfl
          rw [h] at hl
          exact Option.noConfusion hl
        rw [lookupA_setA_ne hne]
        exact h
    simpa [removeAll] using ih hstep

theorem removeAll_of_zero {k : String} {fl : List (String × Folder)} {fids : List String}
    (h : ∀ fid ∈ fids, countOcc k (chatsOf fl fid) = 0) : removeAll k fl fids = fl := by
  induction fids with
  | nil => rfl
  | cons a rest ih =>
    have hstep : removeStep k fl a = fl := by
      unfold removeStep
      cases hl : lookupA a fl with
      | none => rfl
      | some f =>
        have hz : countOcc k f.chats = 0 := by
          have := h a (by simp)
          simpa [chatsOf, hl] using this
        show setA a { f with chats := removeFirst k f.chats } fl = fl
        rw [removeFirst_of_countOcc_zero hz]
        exact setA_lookup_eq_self hl
    have htail : removeAll k fl rest = fl := ih (fun fid hm => h fid (by simp [hm]))
    simpa [removeAll, hstep] using htail

/-! ### Claim C2 -/

/-- C2 counterexample: the claim says every mutating Folder Store operation
is a complete no-op on the store when the scope resolver yields no scope,
but `renameFolder` (src/index.js lines 98-106) never calls
`getCurrentCharacterId` at all: with no active scope it still renames an
existing folder id, so the store changes. -/
theorem renameFolder_mutates_without_scope :
    renameFolder "f1" "New"
        ⟨[("f1", ⟨"Old", [], false, 0⟩)], []⟩
      ≠ (⟨[("f1", ⟨"Old", [], false, 0⟩)], []⟩ : Settings) := by decide

/-- C2 (amended): `createFolder` (both revisions), `deleteFolder` and
`moveChat` leave the settings store unchanged (and cannot crash) when the
scope resolver yields no scope; `renameFolder` does not consult the scope
resolver, so absence of a scope does not stop it from renaming an existing
folder, though it never crashes either. -/
theorem noScope_mutators_noop (freshId name fid k tgt : String) (s : Settings) :
    createFolder none freshId name s = s ∧
    createFolderV1 none freshId name s = s ∧
    deleteFolder none fid s = s ∧
    moveChat none k tgt s = s := by
  have h1 : createFolder none freshId name s = s := by
    unfold createFolder
    split <;> rfl
  exact ⟨h1, rfl, rfl, rfl⟩

/-! ### Claim C10 -/

/-- C10: `renameFolder` on an existing folder id with a non-blank name
changes only the `name` field of that record (to the trimmed name); the
other fields, every other record, and the whole `characterFolders` mapping
are untouched. -/
theorem renameFolder_frame (F newName : String) (f : Folder) (s : Settings)
    (hf : lookupA F s.folders = some f) (hn : isBlank newName = false) :
    lookupA F (renameFolder F newName s).folders
        = some ⟨trimS newName, f.chats, f.collapsed, f.order⟩ ∧
    (∀ g, g ≠ F → lookupA g (renameFolder F newName s).folders = lookupA g s.folders) ∧
    (renameFolder F newName s).characterFolders = s.characterFolders := by
  have hgoal : renameFolder F newName s
      = { s with folders := setA F { f with name := trimS newName } s.folders } := by
    simp only [renameFolder, hn, Bool.false_eq_true, if_false, hf]
  rw [hgoal]
  refine ⟨?_, ?_, rfl⟩
  · rw [lookupA_setA_self]
  · intro g hg
    exact lookupA_setA_ne hg _ _

/-- Witness for C10 at a concrete store. -/
theorem renameFolder_frame_witness :
    (lookupA "f1" (Settings.mk [("f1", Folder.mk "Old" ["c"] true 3)] [("alice", ["f1"])]).folders
        = some (Folder.mk "Old" ["c"] true 3)) ∧
    (isBlank " New " = false) ∧
    (lookupA "f1" (renameFolder "f1" " New "
          (Settings.mk [("f1", Folder.mk "Old" ["c"] true 3)] [("alice", ["f1"])])).folders
        = some (Folder.mk (trimS " New ") ["c"] true 3) ∧
      (∀ g, g ≠ "f1" →
        lookupA g (renameFolder "f1" " New "
            (Settings.mk [("f1", Folder.mk "Old" ["c"] true 3)] [("alice", ["f1"])])).folders
          = lookupA g (Settings.mk [("f1", Folder.mk "Old" ["c"] true 3)] [("alice", ["f1"])]).folders) ∧
      (renameFolder "f1" " New "
          (Settings.mk [("f1", Folder.mk "Old" ["c"] true 3)] [("alice", ["f1"])])).characterFolders
        = (Settings.mk [("f1", Folder.mk "Old" ["c"] true 3)] [("alice", ["f1"])]).characterFolders) :=
  ⟨by decide, by decide,
    renameFolder_frame "f1" " New " (Folder.mk "Old" ["c"] true 3) _ (by decide) (by decide)⟩

/-! ### Claim C3 -/

/-- C3 counterexample: the claim says a `moveChat` with a stale target id
is a silent no-op leaving the store unchanged, with K staying in its
folder.  In fact the removal loop runs before the target is looked up, so
the chat is unassigned: here folder A loses "k1" even though target
"ghost" does not exist. -/
theorem moveChat_stale_target_counterexample :
    moveChat (some "alice") "k1" "ghost"
        ⟨[("A", ⟨"Chats", ["k1"], false, 0⟩)], [("alice", ["A"])]⟩
      ≠ (⟨[("A", ⟨"Chats", ["k1"], false, 0⟩)], [("alice", ["A"])]⟩ : Settings) ∧
    chatsOf (moveChat (some "alice") "k1" "ghost"
        ⟨[("A", ⟨"Chats", ["k1"], false, 0⟩)], [("alice", ["A"])]⟩).folders "A" = [] := by decide

/-- C3 (amended): a `moveChat` whose target folder id has no record (and is
not the `uncategorized` sentinel) adds the chat nowhere, but the removal
phase still runs: the result is exactly the store with the first occurrence
of the chat spliced out of every folder of the scope.  The call is a
complete no-op precisely when the chat was already in no folder of the
scope. -/
theorem moveChat_stale_target (cid k tgt : String) (s : Settings)
    (h1 : lookupA tgt s.folders = none) (_h2 : tgt ≠ "uncategorized") :
    moveChat (some cid) k tgt s
        = { s with folders := removeAll k s.folders (scopeList s cid) } ∧
    ((∀ fid ∈ scopeList s cid, countOcc k (chatsOf s.folders fid) = 0) →
      moveChat (some cid) k tgt s = s) := by
  have hmain : moveChat (some cid) k tgt s
      = { s with folders := removeAll k s.folders (scopeList s cid) } := by
    unfold moveChat
    by_cases hc : tgt ≠ "" ∧ tgt ≠ "uncategorized"
    · have hnone : lookupA tgt (removeAll k s.folders (scopeList s cid)) = none :=
        lookupA_removeAll_none h1
      simp [hc, hnone]
    · simp [hc]
  refine ⟨hmain, fun hz => ?_⟩
  rw [hmain, removeAll_of_zero hz]

/-- Witness for C3 (amended) at a concrete store. -/
theorem moveChat_stale_target_witness :
    (lookupA "ghost"
        (Settings.mk [("A", Folder.mk "Chats" ["k1"] false 0)] [("alice", ["A"])]).folders
      = none) ∧
    ("ghost" ≠ "uncategorized") ∧
    (moveChat (some "alice") "k1" "ghost"
        (Settings.mk [("A", Folder.mk "Chats" ["k1"] false 0)] [("alice", ["A"])])
      = { Settings.mk [("A", Folder.mk "Chats" ["k1"] false 0)] [("alice", ["A"])] with
            folders := removeAll "k1"
              (Settings.mk [("A", Folder.mk "Chats" ["k1"] false 0)] [("alice", ["A"])]).folders
              (scopeList (Settings.mk [("A", Folder.mk "Chats" ["k1"] false 0)] [("alice", ["A"])]) "alice") } ∧
    ((∀ fid ∈ scopeList (Settings.mk [("A", Folder.mk "Chats" ["k1"] false 0)] [("alice", ["A"])]) "alice",
        countOcc "k1" (chatsOf (Settings.mk [("A", Folder.mk "Chats" ["k1"] false 0)] [("alice", ["A"])]).folders fid) = 0) →
      moveChat (some "alice") "k1" "ghost"
          (Settings.mk [("A", Folder.mk "Chats" ["k1"] false 0)] [("alice", ["A"])])
        = Settings.mk [("A", Folder.mk "Chats" ["k1"] false 0)] [("alice", ["A"])])) :=
  ⟨by decide, by decide,
    moveChat_stale_target "alice" "k1" "ghost" _ (by decide) (by decide)⟩

/-! ### Claim C1 -/

theorem chatsOf_removeStep_ne {fid a : String} (h : fid ≠ a) (k : String)
    (fl : List (String × Folder)) : chatsOf (removeStep k fl a) fid = chatsOf fl fid := by
  unfold removeStep
  cases hl : lookupA a fl with
  | none => rfl
  | some f => simp [chatsOf, lookupA_setA_ne h]

theorem countOcc_removeStep_self (k : String) (fl : List (String × Folder)) (a : String) :
    countOcc k (chatsOf (removeStep k fl a) a) = countOcc k (chatsOf fl a) - 1 := by
  unfold removeStep
  cases hl : lookupA a fl with
  | none => simp [chatsOf, hl, countOcc]
  | some f => simp [chatsOf, hl, lookupA_setA_self, countOcc_removeFirst_self]

theorem countOcc_removeStep_other {k k' : String} (h : k ≠ k') (fl : List (String × Folder))
    (a fid : String) :
    countOcc k (chatsOf (removeStep k' fl a) fid) = countOcc k (chatsOf fl fid) := by
  by_cases hfa : fid = a
  · subst hfa
    unfold removeStep
    cases hl : lookupA fid fl with
    | none => rfl
    | some f => simp [chatsOf, hl, lookupA_setA_self, countOcc_removeFirst_ne h]
  · rw [chatsOf_removeStep_ne hfa]

theorem countOcc_removeStep_le (k : String) (fl : List (String × Folder)) (a fid : String) :
    countOcc k (chatsOf (removeStep k fl a) fid) ≤ countOcc k (chatsOf fl fid) := by
  by_cases hfa : fid = a
  · subst hfa
    rw [countOcc_removeStep_self]
    omega
  · rw [chatsOf_removeStep_ne hfa]

theorem countOcc_removeAll_le (k : String) (fl : List (String × Folder))
    (fids : List String) (fid : String) :
    countOcc k (chatsOf (removeAll k fl fids) fid) ≤ countOcc k (chatsOf fl fid) := by
  induction fids generalizing fl with
  | nil => simp [removeAll]
  | cons a rest ih =>
    calc countOcc k (chatsOf (removeAll k fl (a :: rest)) fid)
        = countOcc k (chatsOf (removeAll k (removeStep k fl a) rest) fid) := by
          simp [removeAll]
      _ ≤ countOcc k (chatsOf (removeStep k fl a) fid) := ih _
      _ ≤ countOcc k (chatsOf fl fid) := countOcc_removeStep_le k fl a fid

theorem countOcc_removeAll_mem {k : String} {fl : List (String × Folder)}
    {fids : List String} {fid : String} (h : fid ∈ fids) :
    countOcc k (chatsOf (removeAll k fl fids) fid) ≤ countOcc k (chatsOf fl fid) - 1 := by
  induction fids generalizing fl with
  | nil => simp at h
  | cons a rest ih =>
    by_cases hfa : fid = a
    · subst hfa
      have h1 : countOcc k (chatsOf (removeAll k (removeStep k fl fid) rest) fid)
          ≤ countOcc k (chatsOf (removeStep k fl fid) fid) := countOcc_removeAll_le _ _ _ _
      rw [countOcc_removeStep_self] at h1
      simpa [removeAll] using h1
    · have hrest : fid ∈ rest := by
        rcases List.mem_cons.mp h with hh | hh
        · exact absurd hh hfa
        · exact hh
      have := @ih (removeStep k fl a) hrest
      rw [chatsOf_removeStep_ne hfa] at this
      simpa [removeAll] using this

theorem countOcc_removeAll_other {k k' : String} (h : k ≠ k') (fl : List (String × Folder))
    (fids : List String) (fid : String) :
    countOcc k (chatsOf (removeAll k' fl fids) fid) = countOcc k (chatsOf fl fid) := by
  induction fids generalizing fl with
  | nil => simp [removeAll]
  | cons a rest ih =>
    calc countOcc k (chatsOf (removeAll k' fl (a :: rest)) fid)
        = countOcc k (chatsOf (removeAll k' (removeStep k' fl a) rest) fid) := by
          simp [removeAll]
      _ = countOcc k (chatsOf (removeStep k' fl a) fid) := ih _
      _ = countOcc k (chatsOf fl fid) := countOcc_removeStep_other h fl a fid

/-- Unfolding equation for `moveChat` with an active scope. -/
theorem moveChat_some (cid k tgt : String) (s : Settings) :
    moveChat (some cid) k tgt s =
      { s with folders :=
          if tgt ≠ "" ∧ tgt ≠ "uncategorized" then
            match lookupA tgt (removeAll k s.folders (scopeList s cid)) with
            | some f =>
              setA tgt { f with chats := f.chats ++ [k] }
                (removeAll k s.folders (scopeList s cid))
            | none => removeAll k s.folders (scopeList s cid)
          else removeAll k s.folders (scopeList s cid) } := rfl

/-- The scope list is untouched by `moveChat` (it only rewrites `folders`). -/
theorem scopeList_moveChat (cid' cid k tgt : String) (s : Settings) :
    scopeList (moveChat (some cid') k tgt s) cid = scopeList s cid := by
  unfold moveChat scopeList
  split <;> rfl

/-- Occurrence counts of a file `k` after `moveChat (some cid) k' tgt`:
moving a different file never changes the counts of `k`, and moving `k`
itself zeroes it out on every folder of the scope, except that a listed
target with a record ends with exactly one occurrence. -/
theorem countOcc_moveChat_other {k k' : String} (tgt cid : String) (s : Settings)
    (h : k ≠ k') (fid : String) :
    countOcc k (chatsOf (moveChat (some cid) k' tgt s).folders fid)
      = countOcc k (chatsOf s.folders fid) := by
  rw [moveChat_some]
  by_cases hc : tgt ≠ "" ∧ tgt ≠ "uncategorized"
  · rw [if_pos hc]
    cases hl : lookupA tgt (removeAll k' s.folders (scopeList s cid)) with
    | none => simpa using countOcc_removeAll_other h _ _ _
    | some f =>
      by_cases hfa : fid = tgt
      · subst hfa
        have hchats : chatsOf (setA fid { f with chats := f.chats ++ [k'] }
            (removeAll k' s.folders (scopeList s cid))) fid = f.chats ++ [k'] := by
          simp [chatsOf, lookupA_setA_self]
        rw [show chatsOf (setA fid { f with chats := f.chats ++ [k'] }
            (removeAll k' s.folders (scopeList s cid))) fid = f.chats ++ [k'] from hchats]
        rw [countOcc_append]
        have hf : countOcc k f.chats
            = countOcc k (chatsOf (removeAll k' s.folders (scopeList s cid)) fid) := by
          simp [chatsOf, hl]
        have h' : ¬ (k' = k) := fun hh => h hh.symm
        have h1 : countOcc k [k'] = 0 := by simp [countOcc, h']
        rw [h1, hf, countOcc_removeAll_other h]
        omega
      · have hchats : chatsOf (setA tgt { f with chats := f.chats ++ [k'] }
            (removeAll k' s.folders (scopeList s cid))) fid
            = chatsOf (removeAll k' s.folders (scopeList s cid)) fid := by
          simp [chatsOf, lookupA_setA_ne hfa]
        rw [hchats, countOcc_removeAll_other h]
  · rw [if_neg hc]
    exact countOcc_removeAll_other h _ _ _

/-- After `moveChat (some cid) k tgt`, the count of `k` in every folder of
the scope is zero, except possibly one occurrence at the target. -/
theorem countOcc_moveChat_self {cid k : String} (tgt : String) {s : Settings}
    (h1 : PerFolderOnce s cid k) :
    ∀ fid ∈ scopeList s cid,
      countOcc k (chatsOf (moveChat (some cid) k tgt s).folders fid)
        = if fid = tgt then countOcc k (chatsOf (moveChat (some cid) k tgt s).folders fid) else 0 := by
  intro fid hfid
  have hzero : countOcc k (chatsOf (removeAll k s.folders (scopeList s cid)) fid) = 0 := by
    have hle := @countOcc_removeAll_mem k s.folders (scopeList s cid) fid hfid
    have hone := h1 fid hfid
    omega
  by_cases hfa : fid = tgt
  · simp [hfa]
  · simp only [hfa, if_false]
    rw [moveChat_some]
    by_cases hc : tgt ≠ "" ∧ tgt ≠ "uncategorized"
    · rw [if_pos hc]
      cases hl : lookupA tgt (removeAll k s.folders (scopeList s cid)) with
      | none => simpa using hzero
      | some f =>
        have hchats : chatsOf (setA tgt { f with chats := f.chats ++ [k] }
            (removeAll k s.folders (scopeList s cid))) fid
            = chatsOf (removeAll k s.folders (scopeList s cid)) fid := by
          simp [chatsOf, lookupA_setA_ne hfa]
        simpa [hchats] using hzero
    · rw [if_neg hc]
      exact hzero

/-- One `moveChat` call under the active scope preserves the combined
exclusivity invariant for any key `k` (whether the call moves `k` itself
or a different key). -/
theorem moveChat_preserves_exclusive (cid k k' tgt : String) (s : Settings)
    (h1 : PerFolderOnce s cid k) (h2 : InOneFolder s cid k) :
    PerFolderOnce (moveChat (some cid) k' tgt s) cid k ∧
    InOneFolder (moveChat (some cid) k' tgt s) cid k := by
  have hsl := scopeList_moveChat cid cid k' tgt s
  by_cases hk : k = k'
  · subst hk
    have hne : ∀ fid ∈ scopeList s cid, fid ≠ tgt →
        countOcc k (chatsOf (moveChat (some cid) k tgt s).folders fid) = 0 := by
      intro fid hfid hfa
      have := countOcc_moveChat_self tgt h1 fid hfid
      simpa [hfa] using this
    have htgt : tgt ∈ scopeList s cid →
        countOcc k (chatsOf (moveChat (some cid) k tgt s).folders tgt) ≤ 1 := by
      intro hmem
      have hzero : countOcc k (chatsOf (removeAll k s.folders (scopeList s cid)) tgt) = 0 := by
        have hle := @countOcc_removeAll_mem k s.folders (scopeList s cid) tgt hmem
        have hone := h1 tgt hmem
        omega
      rw [moveChat_some]
      by_cases hc : tgt ≠ "" ∧ tgt ≠ "uncategorized"
      · rw [if_pos hc]
        cases hl : lookupA tgt (removeAll k s.folders (scopeList s cid)) with
        | none => simp [hzero]
        | some f =>
          have hch : chatsOf (setA tgt { f with chats := f.chats ++ [k] }
              (removeAll k s.folders (scopeList s cid))) tgt = f.chats ++ [k] := by
            simp [chatsOf, lookupA_setA_self]
          have hfc : countOcc k f.chats = 0 := by
            simpa [chatsOf, hl] using hzero
          show countOcc k (chatsOf (setA tgt { f with chats := f.chats ++ [k] }
              (removeAll k s.folders (scopeList s cid))) tgt) ≤ 1
          rw [hch, countOcc_append, hfc]
          simp [countOcc]
      · rw [if_neg hc]
        simp [hzero]
    constructor
    · intro fid hfid
      rw [hsl] at hfid
      by_cases hfa : fid = tgt
      · subst hfa
        exact htgt hfid
      · rw [hne fid hfid hfa]
        omega
    · intro fid1 hf1 fid2 hf2 hp1 hp2
      rw [hsl] at hf1 hf2
      by_cases ha1 : fid1 = tgt
      · by_cases ha2 : fid2 = tgt
        · rw [ha1, ha2]
        · rw [hne fid2 hf2 ha2] at hp2
          omega
      · rw [hne fid1 hf1 ha1] at hp1
        omega
  · have hcounts : ∀ fid, countOcc k (chatsOf (moveChat (some cid) k' tgt s).folders fid)
        = countOcc k (chatsOf s.folders fid) := fun fid =>
      countOcc_moveChat_other tgt cid s hk fid
    constructor
    · intro fid hfid
      rw [hsl] at hfid
      rw [hcounts]
      exact h1 fid hfid
    · intro fid1 hf1 fid2 hf2 hp1 hp2
      rw [hsl] at hf1 hf2
      rw [hcounts] at hp1 hp2
      exact h2 fid1 hf1 fid2 hf2 hp1 hp2

/-- C1 counterexample: the claim quantifies over states where the key is in
at most one folder (set membership).  In the state below "k" is in folder A
only, yet it occurs twice in A, and because the removal loop splices only
the first occurrence per folder, a single `moveChat` to B leaves "k" in
both A and B. -/
theorem moveChat_exclusivity_counterexample :
    InOneFolder
        ⟨[("A", ⟨"A", ["k", "k"], false, 0⟩), ("B", ⟨"B", [], false, 1⟩)],
          [("alice", ["A", "B"])]⟩ "alice" "k" ∧
    ¬ InOneFolder
        (moveChat (some "alice") "k" "B"
          ⟨[("A", ⟨"A", ["k", "k"], false, 0⟩), ("B", ⟨"B", [], false, 1⟩)],
            [("alice", ["A", "B"])]⟩) "alice" "k" := by decide

/-- C1 (amended): the exclusivity invariant must count multiplicity.  If a
key occurs at most once in each folder of the scope and lies in at most one
folder of the scope, then after any sequence of `moveChat` calls performed
while that scope is active both facts still hold, so the key is in the
`chats` of at most one folder of the scope. -/
theorem moveSeq_exclusive (cid k : String) (ops : List (String × String)) (s : Settings)
    (h1 : PerFolderOnce s cid k) (h2 : InOneFolder s cid k) :
    PerFolderOnce (moveSeq cid ops s) cid k ∧ InOneFolder (moveSeq cid ops s) cid k := by
  induction ops generalizing s with
  | nil => exact ⟨h1, h2⟩
  | cons op rest ih =>
    have hstep := moveChat_preserves_exclusive cid k op.1 op.2 s h1 h2
    have := ih (moveChat (some cid) op.1 op.2 s) hstep.1 hstep.2
    simpa [moveSeq] using this

/-- Witness for C1 (amended) on a concrete store and a two-call sequence. -/
theorem moveSeq_exclusive_witness :
    (PerFolderOnce
        ⟨[("A", ⟨"A", ["k"], false, 0⟩), ("B", ⟨"B", [], false, 1⟩)],
          [("alice", ["A", "B"])]⟩ "alice" "k" ∧
      InOneFolder
        ⟨[("A", ⟨"A", ["k"], false, 0⟩), ("B", ⟨"B", [], false, 1⟩)],
          [("alice", ["A", "B"])]⟩ "alice" "k") ∧
    (PerFolderOnce
        (moveSeq "alice" [("k", "B"), ("k", "uncategorized")]
          ⟨[("A", ⟨"A", ["k"], false, 0⟩), ("B", ⟨"B", [], false, 1⟩)],
            [("alice", ["A", "B"])]⟩) "alice" "k" ∧
      InOneFolder
        (moveSeq "alice" [("k", "B"), ("k", "uncategorized")]
          ⟨[("A", ⟨"A", ["k"], false, 0⟩), ("B", ⟨"B", [], false, 1⟩)],
            [("alice", ["A", "B"])]⟩) "alice" "k") :=
  ⟨⟨by decide, by decide⟩,
    moveSeq_exclusive "alice" "k" [("k", "B"), ("k", "uncategorized")]
      ⟨[("A", ⟨"A", ["k"], false, 0⟩), ("B", ⟨"B", [], false, 1⟩)],
        [("alice", ["A", "B"])]⟩ (by decide) (by decide)⟩

/-! ### Claim C4 -/

/-- When no folder of the list contains the file, the scan returns the
`uncategorized` sentinel. -/
theorem findChatFolder_eq_uncat {folders : List (String × Folder)} {k : String}
    {l : List String} (h : ∀ fid ∈ l, ¬ (memB k (chatsOf folders fid) = true)) :
    findChatFolder folders k l = "uncategorized" := by
  induction l with
  | nil => rfl
  | cons a rest ih =>
    unfold findChatFolder
    cases hl : lookupA a folders with
    | none => exact ih (fun fid hm => h fid (by simp [hm]))
    | some f =>
      have hk : ¬ (memB k f.chats = true) := by
        have := h a (by simp)
        simpa [chatsOf, hl] using this
      simp only [Bool.not_eq_true] at hk
      simp only [hk, Bool.false_eq_true, if_false]
      exact ih (fun fid hm => h fid (by simp [hm]))

/-- C4: deleting a folder F of the active scope removes its id from the
scope list and its record from the folders map; a chat that was in F (and,
per the exclusivity invariant, in no other folder of the scope) resolves to
the `uncategorized` sentinel afterwards, and every other folder record is
untouched.  The hypotheses `hcnt` and `hkeys` encode the data-model
invariants that ids are not duplicated (ids come from `generateId`); `hex`
is the membership-exclusivity invariant for the chat `k`. -/
theorem deleteFolder_safety (cid F k : String) (lst : List String) (s : Settings)
    (hs : lookupA cid s.characterFolders = some lst)
    (hmem : F ∈ lst) (hcnt : countOcc F lst ≤ 1)
    (hkeys : countOcc F (s.folders.map Prod.fst) ≤ 1)
    (hk : k ∈ chatsOf s.folders F)
    (hex : ∀ fid ∈ lst, fid ≠ F → countOcc k (chatsOf s.folders fid) = 0) :
    F ∉ scopeList (deleteFolder (some cid) F s) cid ∧
    lookupA F (deleteFolder (some cid) F s).folders = none ∧
    getFolderForChat (some cid) k (deleteFolder (some cid) F s) = "uncategorized" ∧
    (∀ g, g ≠ F → lookupA g (deleteFolder (some cid) F s).folders = lookupA g s.folders) := by
  have hunfold : deleteFolder (some cid) F s
      = { folders := eraseA F s.folders,
          characterFolders := setA cid (removeFirst F lst) s.characterFolders } := by
    simp only [deleteFolder, hs]
  have hscope : scopeList (deleteFolder (some cid) F s) cid = removeFirst F lst := by
    rw [hunfold]
    unfold scopeList
    rw [lookupA_setA_self]
    rfl
  have hout : F ∉ removeFirst F lst := not_mem_removeFirst hcnt
  refine ⟨by rw [hscope]; exact hout, ?_, ?_, ?_⟩
  · rw [hunfold]
    exact lookupA_eraseA_self hkeys
  · show findChatFolder (deleteFolder (some cid) F s).folders k
        (scopeList (deleteFolder (some cid) F s) cid) = "uncategorized"
    rw [hscope, hunfold]
    apply findChatFolder_eq_uncat
    intro fid hfid
    have hfl : fid ∈ lst := mem_of_mem_removeFirst hfid
    have hfne : fid ≠ F := by
      rintro rfl
      exact hout hfid
    have hch : chatsOf (eraseA F s.folders) fid = chatsOf s.folders fid := by
      unfold chatsOf
      rw [lookupA_eraseA_ne hfne]
    rw [hch]
    intro hmemb
    have := mem_iff_countOcc.mp (memB_iff_mem.mp hmemb)
    rw [hex fid hfl hfne] at this
    omega
  · intro g hg
    rw [hunfold]
    exact lookupA_eraseA_ne hg _

/-- Witness for C4 at a concrete two-folder store. -/
theorem deleteFolder_safety_witness :
    (lookupA "alice"
        (Settings.mk [("F", Folder.mk "Lore" ["c1"] false 0), ("G", Folder.mk "Misc" ["c2"] false 1)]
          [("alice", ["F", "G"])]).characterFolders = some ["F", "G"]) ∧
    ("F" ∈ ["F", "G"]) ∧
    (countOcc "F" ["F", "G"] ≤ 1) ∧
    ("F" ∉ scopeList (deleteFolder (some "alice") "F"
        (Settings.mk [("F", Folder.mk "Lore" ["c1"] false 0), ("G", Folder.mk "Misc" ["c2"] false 1)]
          [("alice", ["F", "G"])])) "alice" ∧
      lookupA "F" (deleteFolder (some "alice") "F"
        (Settings.mk [("F", Folder.mk "Lore" ["c1"] false 0), ("G", Folder.mk "Misc" ["c2"] false 1)]
          [("alice", ["F", "G"])])).folders = none ∧
      getFolderForChat (some "alice") "c1" (deleteFolder (some "alice") "F"
        (Settings.mk [("F", Folder.mk "Lore" ["c1"] false 0), ("G", Folder.mk "Misc" ["c2"] false 1)]
          [("alice", ["F", "G"])])) = "uncategorized" ∧
      (∀ g, g ≠ "F" → lookupA g (deleteFolder (some "alice") "F"
          (Settings.mk [("F", Folder.mk "Lore" ["c1"] false 0), ("G", Folder.mk "Misc" ["c2"] false 1)]
            [("alice", ["F", "G"])])).folders
        = lookupA g (Settings.mk [("F", Folder.mk "Lore" ["c1"] false 0), ("G", Folder.mk "Misc" ["c2"] false 1)]
            [("alice", ["F", "G"])]).folders)) :=
  ⟨by decide, by decide, by decide,
    deleteFolder_safety "alice" "F" "c1" ["F", "G"]
      (Settings.mk [("F", Folder.mk "Lore" ["c1"] false 0), ("G", Folder.mk "Misc" ["c2"] false 1)]
        [("alice", ["F", "G"])])
      (by decide) (by decide) (by decide) (by decide) (by decide) (by decide)⟩

/-! ### Claim C7 -/

theorem insertByOrder_mem {e x : FolderEntry} {l : List FolderEntry} :
    x ∈ insertByOrder e l ↔ x = e ∨ x ∈ l := by
  induction l with
  | nil => simp [insertByOrder]
  | cons a rest ih =>
    unfold insertByOrder
    by_cases h : a.order < e.order
    · rw [if_pos h]
      simp only [List.mem_cons, ih]
      tauto
    · rw [if_neg h]
      simp only [List.mem_cons]

theorem mem_sortByOrder {x : FolderEntry} {l : List FolderEntry} :
    x ∈ sortByOrder l ↔ x ∈ l := by
  induction l with
  | nil => simp [sortByOrder]
  | cons a rest ih => simp [sortByOrder, insertByOrder_mem, ih]

theorem insertByOrder_pairwise {e : FolderEntry} {l : List FolderEntry}
    (h : List.Pairwise (fun a b => a.order ≤ b.order) l) :
    List.Pairwise (fun a b => a.order ≤ b.order) (insertByOrder e l) := by
  induction l with
  | nil => simp [insertByOrder]
  | cons a rest ih =>
    rcases List.pairwise_cons.mp h with ⟨ha, hrest⟩
    by_cases hlt : a.order < e.order
    · simp only [insertByOrder, if_pos hlt]
      refine List.pairwise_cons.mpr ⟨?_, ih hrest⟩
      intro x hx
      rcases insertByOrder_mem.mp hx with rfl | hx
      · exact Nat.le_of_lt hlt
      · exact ha x hx
    · simp only [insertByOrder, if_neg hlt]
      refine List.pairwise_cons.mpr ⟨?_, h⟩
      intro x hx
      rcases List.mem_cons.mp hx with rfl | hx
      · exact Nat.le_of_not_lt hlt
      · exact Nat.le_trans (Nat.le_of_not_lt hlt) (ha x hx)

theorem sortByOrder_pairwise (l : List FolderEntry) :
    List.Pairwise (fun a b => a.order ≤ b.order) (sortByOrder l) := by
  induction l with
  | nil => simp [sortByOrder]
  | cons a rest ih => exact insertByOrder_pairwise ih

/-- Stability of the insertion: restricted to any one `order` value, the
sorted output lists the entries in their original order. -/
theorem filter_insertByOrder (e : FolderEntry) (l : List FolderEntry) (n : Nat) :
    (insertByOrder e l).filter (fun x => decide (x.order = n))
      = if e.order = n then e :: l.filter (fun x => decide (x.order = n))
        else l.filter (fun x => decide (x.order = n)) := by
  induction l with
  | nil =>
    by_cases h : e.order = n <;> simp [insertByOrder, h]
  | cons a rest ih =>
    unfold insertByOrder
    by_cases hlt : a.order < e.order
    · rw [if_pos hlt]
      by_cases hen : e.order = n
      · have han : ¬ (a.order = n) := by omega
        rw [if_pos hen]
        simp [List.filter_cons, han, hen, ih]
      · rw [if_neg hen]
        simp [List.filter_cons, ih, hen]
    · rw [if_neg hlt]
      by_cases hen : e.order = n <;> simp [List.filter_cons, hen]

theorem filter_sortByOrder (l : List FolderEntry) (n : Nat) :
    (sortByOrder l).filter (fun x => decide (x.order = n))
      = l.filter (fun x => decide (x.order = n)) := by
  induction l with
  | nil => rfl
  | cons a rest ih =>
    rw [sortByOrder, filter_insertByOrder]
    by_cases h : a.order = n <;> simp [List.filter_cons, h, ih]

/-- Entries surviving the name filter always have a record. -/
theorem scopeEntries_id_exists {s : Settings} {fids : List String} {e : FolderEntry}
    (he : e ∈ scopeEntries s fids) : lookupA e.id s.folders ≠ none := by
  unfold scopeEntries at he
  rcases List.mem_filter.mp he with ⟨h2, h1⟩
  rcases List.mem_map.mp h2 with ⟨id, hid, rfl⟩
  cases hl : lookupA id s.folders with
  | none =>
    simp [entryOf, hl] at h1
  | some f =>
    simp [entryOf, hl]

/-- C7 counterexample: `getFoldersForCharacter` (src/index.js v1.6.0 block,
lines 1217-1226) performs no sort, so a scope whose insertion order
disagrees with the `order` fields is returned unsorted, contradicting the
claim that both listing functions sort by `order`. -/
theorem getFoldersForCharacter_unsorted_counterexample :
    ¬ List.Pairwise (fun a b => a.order ≤ b.order)
      (getFoldersForCharacter (some "alice")
        ⟨[("A", ⟨"a", [], false, 5⟩), ("B", ⟨"b", [], false, 2⟩)],
          [("alice", ["A", "B"])]⟩) := by decide

/-- C7 (amended): `getFoldersForCurrentCharacter` (part_000) returns the
scope entries sorted by `order` ascending, with ties kept in insertion
order (its restriction to each `order` value equals that of the unsorted
`getFoldersForCharacter`), and every returned entry has a record (dangling
ids, whose spread leaves a falsy name, are filtered out); the index.js
v1.6.0 `getFoldersForCharacter` does not sort and simply returns the
filtered entries in insertion order. -/
theorem listFolders_sorted_stable (scope : Option String) (s : Settings) :
    List.Pairwise (fun a b => a.order ≤ b.order) (getFoldersForCurrentCharacter scope s) ∧
    (∀ n, (getFoldersForCurrentCharacter scope s).filter (fun x => decide (x.order = n))
        = (getFoldersForCharacter scope s).filter (fun x => decide (x.order = n))) ∧
    (∀ e ∈ getFoldersForCurrentCharacter scope s, lookupA e.id s.folders ≠ none) ∧
    (∀ e ∈ getFoldersForCharacter scope s, lookupA e.id s.folders ≠ none) := by
  cases scope with
  | none =>
    simp [getFoldersForCurrentCharacter, getFoldersForCharacter]
  | some cid =>
    refine ⟨sortByOrder_pairwise _, fun n => filter_sortByOrder _ n, ?_, ?_⟩
    · intro e he
      exact scopeEntries_id_exists (mem_sortByOrder.mp he)
    · intro e he
      exact scopeEntries_id_exists he

/-! ### Claim C8 -/

/-- C8 counterexample: in a scope with no folders and no chats, the claim
says the empty unassigned group must not be hidden (no other groups exist),
but all revisions hide the empty Uncategorized section unconditionally
(`section.style.display = count > 0 ? '' : 'none'`). -/
theorem uncat_hidden_counterexample :
    folderGroupsOf (some "alice") (⟨[], []⟩ : Settings) [] = [] ∧
    (uncatGroupOf (some "alice") (⟨[], []⟩ : Settings) []).hidden = true := by decide

/-- C8 (amended): in the view a reconciliation pass produces, a group is
hidden exactly when it is the implicit Uncategorized group and holds zero
items — folder groups are never hidden (even when empty), and the empty
Uncategorized group is hidden even when no folder groups exist. -/
theorem group_hiding_rule (scope : Option String) (s : Settings) (chats : List String) :
    (∀ g ∈ folderGroupsOf scope s chats, g.hidden = false) ∧
    ((uncatGroupOf scope s chats).hidden = true ↔ (uncatGroupOf scope s chats).count = 0) := by
  constructor
  · intro g hg
    unfold folderGroupsOf at hg
    rcases List.mem_filterMap.mp hg with ⟨fid, hfid, hsome⟩
    cases hl : lookupA fid s.folders with
    | none =>
      rw [hl] at hsome
      exact Option.noConfusion hsome
    | some f =>
      rw [hl] at hsome
      simp only [Option.some.injEq] at hsome
      rw [← hsome]
  · unfold uncatGroupOf
    cases chats.filter (fun c => decide (getFolderForChat scope c s = "uncategorized")) with
    | nil => simp
    | cons a rest => simp

/-- Witness for C8 (amended): a store with one empty folder, one chat in a
second folder, and one unassigned chat. -/
theorem group_hiding_rule_witness :
    (∀ g ∈ folderGroupsOf (some "alice")
        (Settings.mk [("A", Folder.mk "Empty" [] false 0), ("B", Folder.mk "Full" ["c1"] false 1)]
          [("alice", ["A", "B"])]) ["c1", "c2"], g.hidden = false) ∧
    ((uncatGroupOf (some "alice")
        (Settings.mk [("A", Folder.mk "Empty" [] false 0), ("B", Folder.mk "Full" ["c1"] false 1)]
          [("alice", ["A", "B"])]) ["c1", "c2"]).hidden = true ↔
      (uncatGroupOf (some "alice")
        (Settings.mk [("A", Folder.mk "Empty" [] false 0), ("B", Folder.mk "Full" ["c1"] false 1)]
          [("alice", ["A", "B"])]) ["c1", "c2"]).count = 0) :=
  group_hiding_rule (some "alice")
    (Settings.mk [("A", Folder.mk "Empty" [] false 0), ("B", Folder.mk "Full" ["c1"] false 1)]
      [("alice", ["A", "B"])]) ["c1", "c2"]

/-! ### Claim C5 -/

/-- C5: `buildUI` (src/index.js v1.6.0 block, lines 1230-1311) is not
idempotent, contradicting the explicit spec requirement.  On a popup with
one chat, the first pass builds the Uncategorized section holding the chat.
The second pass removes `.tmc_root` first (line 1243) — which discards the
chat blocks moved into it — then finds zero `.select_chat_block` elements
and returns early: the rebuilt view is gone and every item is lost. -/
theorem buildUI_double_pass_loses_items :
    (buildUIM (some "alice") (⟨[], []⟩ : Settings) ⟨true, true, ["chat1"], none⟩).2
      = ⟨true, true, [],
          some [⟨"uncategorized", "Uncategorized", false, ["chat1"], 1, false⟩]⟩ ∧
    (buildUIM (some "alice") (⟨[], []⟩ : Settings)
        (buildUIM (some "alice") (⟨[], []⟩ : Settings) ⟨true, true, ["chat1"], none⟩).2).2
      = ⟨true, true, [], none⟩ := by decide

/-! ### Claim C6 -/

/-- C6: every reconciliation pass of each revision — `performSync`,
`buildUI` and `injectFoldersIntoChatHistory` — is a total function of its
inputs (the Lean model terminates on every configuration, mirroring the
source where every entry point is guarded or wrapped in try/catch) and
never writes the settings store; with a hidden or missing popup, a missing
wrapper, no active scope, or no host items, the degenerate branches return
the input state unchanged. -/
theorem reconcile_total_and_readonly (scope : Option String) (s : Settings)
    (p : PopupState) (w : WrapperState) (h : HistoryState) :
    (performSyncM scope s p).1 = s ∧
    (buildUIM scope s w).1 = s ∧
    (injectModel scope s h).1 = s ∧
    (p.visible = false → performSyncM scope s p = (s, p)) ∧
    (w.visible = false → buildUIM scope s w = (s, w)) ∧
    (scope = none → buildUIM scope s w = (s, w)) ∧
    (h.popupPresent = false → injectModel scope s h = (s, h)) ∧
    (h.blocks = [] → injectModel scope s h = (s, h)) ∧
    (scope = none → injectModel scope s h = (s, h)) := by
  refine ⟨?_, ?_, ?_, ?_, ?_, ?_, ?_, ?_, ?_⟩
  · unfold performSyncM
    split <;> rfl
  · unfold buildUIM
    split
    · cases scope with
      | none => rfl
      | some cid =>
        dsimp only
        split <;> rfl
    · rfl
  · unfold injectModel
    split
    · rfl
    · split
      · rfl
      · split
        · rfl
        · cases scope with
          | none => rfl
          | some cid =>
            dsimp only
            split <;> rfl
  · intro hv
    unfold performSyncM
    rw [hv]
    rfl
  · intro hv
    unfold buildUIM
    rw [hv]
    rfl
  · rintro rfl
    unfold buildUIM
    split <;> rfl
  · intro hv
    unfold injectModel
    rw [hv]
    rfl
  · intro hv
    unfold injectModel
    rw [hv]
    simp
  · rintro rfl
    unfold injectModel
    split
    · rfl
    · split
      · rfl
      · split <;> rfl

/-! ### Claim C9 -/

theorem countOcc_cons (k a : String) (l : List String) :
    countOcc k (a :: l) = (if a = k then 1 else 0) + countOcc k l := rfl

theorem memB_false_of_not_mem {x : String} {l : List String} (h : ¬ x ∈ l) :
    memB x l = false := by
  cases hm : memB x l with
  | false => rfl
  | true => exact absurd (memB_iff_mem.mp hm) h

theorem memB_eq_of_countOcc {x : String} {l1 l2 : List String}
    (h : countOcc x l1 = countOcc x l2) : memB x l1 = memB x l2 := by
  by_cases h1 : x ∈ l1
  · have h2 : x ∈ l2 := by
      have c1 := mem_iff_countOcc.mp h1
      exact mem_iff_countOcc.mpr (by omega)
    rw [memB_iff_mem.mpr h1, memB_iff_mem.mpr h2]
  · have h2 : ¬ x ∈ l2 := by
      intro hm
      have c2 := mem_iff_countOcc.mp hm
      exact h1 (mem_iff_countOcc.mpr (by omega))
    rw [memB_false_of_not_mem h1, memB_false_of_not_mem h2]

/-- The count of `Object.keys(folders)` entries included in a duplicate-free
scope list equals the length of the list, provided every listed id is a
key and the keys are themselves duplicate-free. -/
theorem filter_memB_length {keys lst : List String}
    (hsub : ∀ x ∈ lst, x ∈ keys)
    (hl : ∀ x ∈ lst, countOcc x lst ≤ 1)
    (hk : ∀ x ∈ keys, countOcc x keys ≤ 1) :
    (keys.filter (fun id => memB id lst)).length = lst.length := by
  induction keys generalizing lst with
  | nil =>
    cases lst with
    | nil => rfl
    | cons a r => exact absurd (hsub a (by simp)) (by simp)
  | cons a ks ih =>
    have hack : countOcc a ks = 0 := by
      have h0 := hk a (by simp)
      rw [countOcc_cons] at h0
      simp at h0
      omega
    have hanotin : ¬ a ∈ ks := by
      intro hm
      have := mem_iff_countOcc.mp hm
      omega
    have hk' : ∀ x ∈ ks, countOcc x ks ≤ 1 := by
      intro x hx
      have h0 := hk x (by simp [hx])
      rw [countOcc_cons] at h0
      by_cases hax : a = x <;> simp [hax] at h0 <;> omega
    by_cases hmem : a ∈ lst
    · have hpa : memB a lst = true := memB_iff_mem.mpr hmem
      rw [List.filter_cons, hpa]
      simp only [if_true]
      have hcnta : countOcc a lst ≤ 1 := hl a hmem
      have hfcongr : ks.filter (fun id => memB id lst)
          = ks.filter (fun id => memB id (removeFirst a lst)) := by
        apply List.filter_congr
        intro x hx
        have hxa : x ≠ a := fun hh => hanotin (hh ▸ hx)
        exact memB_eq_of_countOcc (countOcc_removeFirst_ne hxa lst).symm
      have hsub' : ∀ x ∈ removeFirst a lst, x ∈ ks := by
        intro x hx
        have hxl : x ∈ lst := mem_of_mem_removeFirst hx
        have hxa : x ≠ a := by
          rintro rfl
          exact not_mem_removeFirst hcnta hx
        rcases List.mem_cons.mp (hsub x hxl) with hh | hh
        · exact absurd hh hxa
        · exact hh
      have hl' : ∀ x ∈ removeFirst a lst, countOcc x (removeFirst a lst) ≤ 1 := by
        intro x hx
        have hxa : x ≠ a := by
          rintro rfl
          exact not_mem_removeFirst hcnta hx
        rw [countOcc_removeFirst_ne hxa]
        exact hl x (mem_of_mem_removeFirst hx)
      have hlen := length_removeFirst hmem
      have := ih hsub' hl' hk'
      rw [hfcongr]
      simp only [List.length_cons, this]
      omega
    · have hpa : memB a lst = false := memB_false_of_not_mem hmem
      rw [List.filter_cons, hpa]
      simp only [Bool.false_eq_true, if_false]
      have hsub' : ∀ x ∈ lst, x ∈ ks := by
        intro x hx
        rcases List.mem_cons.mp (hsub x hx) with hh | hh
        · exact absurd (hh ▸ hx) hmem
        · exact hh
      exact ih hsub' hl hk'

/-- Unfolding equation for `createFolder` with an active scope and a
non-blank name. -/
theorem createFolder_some (cid freshId name : String) (s : Settings)
    (hname : isBlank name = false) :
    createFolder (some cid) freshId name s
      = { folders := setA freshId ⟨trimS name, [], false, (scopeList s cid).length⟩ s.folders,
          characterFolders := setA cid (scopeList s cid ++ [freshId]) s.characterFolders } := by
  unfold createFolder
  rw [hname]
  rfl

/-- Unfolding equation for part_000 `createFolder` with an active scope. -/
theorem createFolderV1_some (cid freshId name : String) (s : Settings) :
    createFolderV1 (some cid) freshId name s
      = { folders := setA freshId
            ⟨(if name = "" then "New Folder" else name), [], false,
              ((s.folders.map Prod.fst).filter (fun id => memB id (scopeList s cid))).length⟩
            s.folders,
          characterFolders := setA cid (scopeList s cid ++ [freshId]) s.characterFolders } := rfl

/-- C9 counterexample: part_000 `createFolder` (lines 63-87) counts the
folder-map keys the scope list includes, not the listed ids.  With a single
dangling listed id "ghost", the new folder gets `order = 0` although one
folder id is listed for the scope, contradicting the claim that `order`
equals the number of listed folder ids. -/
theorem createFolderV1_order_counterexample :
    (lookupA "fNew" (createFolderV1 (some "alice") "fNew" "Lore"
        ⟨[], [("alice", ["ghost"])]⟩).folders).map Folder.order = some 0 ∧
    (scopeList (⟨[], [("alice", ["ghost"])]⟩ : Settings) "alice").length = 1 := by decide

/-- C9 (amended): the index.js `createFolder` satisfies the claim on every
store: the new record has `order` equal to the length of the scope list
before the call, empty `chats`, `collapsed = false`, and the fresh id is
appended to the end of the scope list.  The part_000 `createFolder` assigns
`order` = number of folder-map keys included in the scope list, which
equals the listed count exactly when every listed id has a record and
neither the list nor the key set has duplicates. -/
theorem createFolder_order_assignment (cid freshId name : String) (s : Settings)
    (hname : isBlank name = false)
    (hsub : ∀ x ∈ scopeList s cid, x ∈ s.folders.map Prod.fst)
    (hlst : ∀ x ∈ scopeList s cid, countOcc x (scopeList s cid) ≤ 1)
    (hkeys : ∀ x ∈ s.folders.map Prod.fst, countOcc x (s.folders.map Prod.fst) ≤ 1) :
    lookupA freshId (createFolder (some cid) freshId name s).folders
        = some ⟨trimS name, [], false, (scopeList s cid).length⟩ ∧
    scopeList (createFolder (some cid) freshId name s) cid = scopeList s cid ++ [freshId] ∧
    lookupA freshId (createFolderV1 (some cid) freshId name s).folders
        = some ⟨(if name = "" then "New Folder" else name), [], false, (scopeList s cid).length⟩ ∧
    scopeList (createFolderV1 (some cid) freshId name s) cid = scopeList s cid ++ [freshId] := by
  refine ⟨?_, ?_, ?_, ?_⟩
  · rw [createFolder_some cid freshId name s hname]
    exact lookupA_setA_self _ _ _
  · rw [createFolder_some cid freshId name s hname]
    unfold scopeList
    rw [lookupA_setA_self]
    rfl
  · rw [createFolderV1_some]
    rw [lookupA_setA_self]
    rw [filter_memB_length hsub hlst hkeys]
  · rw [createFolderV1_some]
    unfold scopeList
    rw [lookupA_setA_self]
    rfl

/-- Witness for C9 at a concrete one-folder store. -/
theorem createFolder_order_assignment_witness :
    (isBlank " Lore " = false) ∧
    (∀ x ∈ scopeList (Settings.mk [("A", Folder.mk "First" [] false 0)] [("alice", ["A"])]) "alice",
      x ∈ (Settings.mk [("A", Folder.mk "First" [] false 0)] [("alice", ["A"])]).folders.map Prod.fst) ∧
    (lookupA "B" (createFolder (some "alice") "B" " Lore "
        (Settings.mk [("A", Folder.mk "First" [] false 0)] [("alice", ["A"])])).folders
      = some (Folder.mk (trimS " Lore ") [] false
          (scopeList (Settings.mk [("A", Folder.mk "First" [] false 0)] [("alice", ["A"])]) "alice").length) ∧
    scopeList (createFolder (some "alice") "B" " Lore "
        (Settings.mk [("A", Folder.mk "First" [] false 0)] [("alice", ["A"])])) "alice"
      = scopeList (Settings.mk [("A", Folder.mk "First" [] false 0)] [("alice", ["A"])]) "alice" ++ ["B"] ∧
    lookupA "B" (createFolderV1 (some "alice") "B" " Lore "
        (Settings.mk [("A", Folder.mk "First" [] false 0)] [("alice", ["A"])])).folders
      = some (Folder.mk (if " Lore " = "" then "New Folder" else " Lore ") [] false
          (scopeList (Settings.mk [("A", Folder.mk "First" [] false 0)] [("alice", ["A"])]) "alice").length) ∧
    scopeList (createFolderV1 (some "alice") "B" " Lore "
        (Settings.mk [("A", Folder.mk "First" [] false 0)] [("alice", ["A"])])) "alice"
      = scopeList (Settings.mk [("A", Folder.mk "First" [] false 0)] [("alice", ["A"])]) "alice" ++ ["B"]) :=
  ⟨by decide, by decide,
    createFolder_order_assignment "alice" "B" " Lore "
      (Settings.mk [("A", Folder.mk "First" [] false 0)] [("alice", ["A"])])
      (by decide) (by decide) (by decide) (by decide)⟩
